import Mathlib

/-!
# CGPA calculator: the grade table and the average engine

A shallow embedding of `src/components/CGPACalculator.jsx`.

* Credit hours and grade points are JavaScript numbers with their special values
  (`NaN`, `+Infinity`, `-Infinity`); their finite values are exact rationals, so the
  average is computed in exact rational arithmetic: no rounding, no overflow of a finite
  value to `Infinity`, no underflow to `0`.
  Negative zero is identified with zero: the component only ever compares with
  `> 0`, adds to totals that start at `0`, and divides by a total that is `> 0`.
* The three editable fields of a record hold strings (they are initialised with `''`
  and written from `e.target.value`).
* The id of a record is a double with an integer value, kept as an `Int`. `Math.max`
  returns one of its arguments, so it is exact; the `+ 1` of `addSubject` is a double
  addition, so its exact result is rounded to the nearest double (`roundToDouble`):
  exact up to `2 ^ 53 = 9007199254740992`, and `2 ^ 53 + 1` gives `2 ^ 53` again.
* `gradeMapping[key]` is a property read on an object literal, so it sees the eleven
  own properties and the properties inherited from `Object.prototype`.
* `updateSubject` is modelled on the three field names its call sites pass
  (`'name'`, `'creditHours'`, `'grade'`).
* The state is the pair of the table and the stored CGPA; persistence to local storage
  and the dark-mode flag do not enter any statement below and are left out.
-/

namespace CGPACalculator

/-! ## JavaScript numbers -/

/-- A JavaScript number: NaN, a finite value (kept exact), or a signed infinity. -/
inductive JSNumber where
  | nan : JSNumber
  | fin (q : ℚ) : JSNumber
  | posInf : JSNumber
  | negInf : JSNumber
  deriving DecidableEq

namespace JSNumber

/-- The `+` of two numbers. -/
def add : JSNumber → JSNumber → JSNumber
  | nan, _ => nan
  | _, nan => nan
  | fin a, fin b => fin (a + b)
  | fin _, posInf => posInf
  | fin _, negInf => negInf
  | posInf, fin _ => posInf
  | posInf, posInf => posInf
  | posInf, negInf => nan
  | negInf, fin _ => negInf
  | negInf, negInf => negInf
  | negInf, posInf => nan

/-- An infinity with the sign of `q`; `0 * Infinity` is NaN. -/
def infTimes (q : ℚ) (positive : Bool) : JSNumber :=
  if q = 0 then nan
  else if (0 < q) = positive then posInf else negInf

/-- The `*` of two numbers. -/
def mul : JSNumber → JSNumber → JSNumber
  | nan, _ => nan
  | _, nan => nan
  | fin a, fin b => fin (a * b)
  | fin a, posInf => infTimes a true
  | fin a, negInf => infTimes a false
  | posInf, fin b => infTimes b true
  | negInf, fin b => infTimes b false
  | posInf, posInf => posInf
  | posInf, negInf => negInf
  | negInf, posInf => negInf
  | negInf, negInf => posInf

/-- The `/` of two numbers. -/
def div : JSNumber → JSNumber → JSNumber
  | nan, _ => nan
  | _, nan => nan
  | fin a, fin b =>
    if b = 0 then (if a = 0 then nan else if 0 < a then posInf else negInf)
    else fin (a / b)
  | fin _, posInf => fin 0
  | fin _, negInf => fin 0
  | posInf, fin b => if 0 ≤ b then posInf else negInf
  | negInf, fin b => if 0 ≤ b then negInf else posInf
  | posInf, posInf => nan
  | posInf, negInf => nan
  | negInf, posInf => nan
  | negInf, negInf => nan

/-- The comparison `x > y`; false as soon as one side is NaN. -/
def gt : JSNumber → JSNumber → Bool
  | nan, _ => false
  | _, nan => false
  | fin a, fin b => decide (b < a)
  | fin _, posInf => false
  | fin _, negInf => true
  | posInf, posInf => false
  | posInf, _ => true
  | negInf, _ => false

end JSNumber

/-! ## `parseFloat` -/

/-- White space and line terminators that `parseFloat` skips at the start. -/
def isWhiteSpace (c : Char) : Bool :=
  decide (c.toNat ∈ [9, 10, 11, 12, 13, 32, 160, 5760, 8232, 8233, 8239, 8287, 12288, 65279])
    || (decide (8192 ≤ c.toNat) && decide (c.toNat ≤ 8202))

/-- The value of a run of decimal digits. -/
def digitsValue (ds : List Char) : Nat :=
  ds.foldl (fun n c => 10 * n + (c.toNat - 48)) 0

/-- The mantissa `m` scaled by `10 ^ e`. -/
def scale10 (m : Nat) (e : Int) : ℚ :=
  if 0 ≤ e then (m : ℚ) * (10 : ℚ) ^ e.toNat else (m : ℚ) / (10 : ℚ) ^ (-e).toNat

/-- The exponent part at the head of `cs` when there is a complete one, else `0`. -/
def exponentPart (cs : List Char) : Int :=
  match cs with
  | [] => 0
  | c :: rest =>
    if c = 'e' ∨ c = 'E' then
      match rest with
      | '+' :: ds =>
        if (ds.takeWhile Char.isDigit).isEmpty then 0
        else (digitsValue (ds.takeWhile Char.isDigit) : Int)
      | '-' :: ds =>
        if (ds.takeWhile Char.isDigit).isEmpty then 0
        else -(digitsValue (ds.takeWhile Char.isDigit) : Int)
      | ds =>
        if (ds.takeWhile Char.isDigit).isEmpty then 0
        else (digitsValue (ds.takeWhile Char.isDigit) : Int)
    else 0

/-- The longest prefix of `cs` that is an unsigned decimal literal, as a number. -/
def parseUnsigned (cs : List Char) : JSNumber :=
  if "Infinity".toList.isPrefixOf cs then JSNumber.posInf
  else
    let ip := cs.takeWhile Char.isDigit
    match cs.dropWhile Char.isDigit with
    | '.' :: r =>
      let fp := r.takeWhile Char.isDigit
      if ip.isEmpty && fp.isEmpty then JSNumber.nan
      else JSNumber.fin
        (scale10 (digitsValue (ip ++ fp)) (exponentPart (r.dropWhile Char.isDigit) - fp.length))
    | r =>
      if ip.isEmpty then JSNumber.nan
      else JSNumber.fin (scale10 (digitsValue ip) (exponentPart r))

/-- The negation of a number. -/
def JSNumber.neg : JSNumber → JSNumber
  | JSNumber.nan => JSNumber.nan
  | JSNumber.fin q => JSNumber.fin (-q)
  | JSNumber.posInf => JSNumber.negInf
  | JSNumber.negInf => JSNumber.posInf

/-- The built-in `parseFloat` on a string. -/
def parseFloat (s : String) : JSNumber :=
  match s.toList.dropWhile isWhiteSpace with
  | '+' :: cs => parseUnsigned cs
  | '-' :: cs => (parseUnsigned cs).neg
  | cs => parseUnsigned cs

/-! ## Values read from `gradeMapping` -/

/-- What a property read on `gradeMapping` can give. -/
inductive JSValue where
  | undefined : JSValue
  | number (x : JSNumber) : JSValue
  | object : JSValue
  deriving DecidableEq

/-- The `ToNumber` conversion applied by `*`: an object or function from
`Object.prototype` converts to NaN, and so does `undefined`. -/
def JSValue.toNumber : JSValue → JSNumber
  | JSValue.undefined => JSNumber.nan
  | JSValue.number x => x
  | JSValue.object => JSNumber.nan

/-- The own properties of the `gradeMapping` object literal, in source order. -/
def gradeScale : List (String × ℚ) :=
  [("A", 4), ("A-", 367 / 100), ("B+", 333 / 100), ("B", 3), ("B-", 267 / 100),
   ("C+", 233 / 100), ("C", 2), ("C-", 167 / 100), ("D+", 133 / 100), ("D", 1), ("F", 0)]

/-- The own property names of `gradeMapping`: the list `Object.keys(gradeMapping)`. -/
def gradeKeys : List String :=
  gradeScale.map Prod.fst

/-- The property names an object literal inherits from `Object.prototype`. -/
def objectPrototypeKeys : List String :=
  ["constructor", "hasOwnProperty", "isPrototypeOf", "propertyIsEnumerable",
   "toLocaleString", "toString", "valueOf", "__proto__",
   "__defineGetter__", "__defineSetter__", "__lookupGetter__", "__lookupSetter__"]

/-- The read `gradeMapping[key]`: an own property, else one inherited from
`Object.prototype` (a function, or the prototype object itself), else `undefined`. -/
def gradeMapping (key : String) : JSValue :=
  match gradeScale.lookup key with
  | some v => JSValue.number (JSNumber.fin v)
  | none => if key ∈ objectPrototypeKeys then JSValue.object else JSValue.undefined

/-! ## The grade table -/

/-- One row of the table. -/
structure SubjectRecord where
  id : Int
  name : String
  creditHours : String
  grade : String
  deriving DecidableEq

/-- The running totals of the CGPA effect. -/
structure Totals where
  totalCreditHours : JSNumber
  totalGradePoints : JSNumber
  deriving DecidableEq

/-- The body of the `forEach` callback of the CGPA effect. -/
def accumulate (acc : Totals) (subject : SubjectRecord) : Totals :=
  let creditHours := parseFloat subject.creditHours
  let gradeValue := gradeMapping subject.grade
  if creditHours.gt (JSNumber.fin 0) && decide (gradeValue ≠ JSValue.undefined) then
    { totalCreditHours := acc.totalCreditHours.add creditHours
      totalGradePoints := acc.totalGradePoints.add (creditHours.mul gradeValue.toNumber) }
  else acc

/-- The totals after the `forEach` over the table. -/
def totals (subjects : List SubjectRecord) : Totals :=
  subjects.foldl accumulate { totalCreditHours := JSNumber.fin 0, totalGradePoints := JSNumber.fin 0 }

/-- The value the CGPA effect passes to `setCgpa`. -/
def calculateCGPA (subjects : List SubjectRecord) : JSNumber :=
  let t := totals subjects
  if t.totalCreditHours.gt (JSNumber.fin 0) then t.totalGradePoints.div t.totalCreditHours
  else JSNumber.fin 0

/-! ## The handlers -/

/-- The record literal of `addSubject` and `resetCalculator`. -/
def blankRecord (id : Int) : SubjectRecord :=
  { id := id, name := "", creditHours := "", grade := "" }

/-- The value `Math.max(...subjects.map(s => s.id), 0)`. -/
def maxId (subjects : List SubjectRecord) : Int :=
  (subjects.map (fun s => s.id)).foldl max 0

/-- The spacing of the doubles around the natural number `a`: the least power of two `u`,
from `u` on, with `a / u < 2 ^ 53`; `fuel` bounds the number of doublings. -/
def spacingFrom : Nat → Nat → Nat → Nat
  | 0, _, u => u
  | fuel + 1, a, u => if a / u < 2 ^ 53 then u else spacingFrom fuel a (2 * u)

/-- The double nearest to the integer `x`, ties to the even significand: the result of a
double operation whose exact result is `x`. Integers of magnitude up to `2 ^ 53` are
doubles; above, the doubles are the multiples of the spacing. -/
def roundToDouble (x : Int) : Int :=
  let a := x.natAbs
  let ulp := spacingFrom a a 1
  let q := a / ulp
  let r := a % ulp
  let m :=
    if 2 * r < ulp then q
    else if ulp < 2 * r then q + 1
    else if q % 2 = 0 then q else q + 1
  x.sign * ((m * ulp : Nat) : Int)

/-- The table `addSubject` passes to `setSubjects`. -/
def addSubject (subjects : List SubjectRecord) : List SubjectRecord :=
  let newId := roundToDouble (maxId subjects + 1)
  subjects ++ [blankRecord newId]

/-- The table after `removeSubject(id)`. -/
def removeSubject (subjects : List SubjectRecord) (id : Int) : List SubjectRecord :=
  if 1 < subjects.length then subjects.filter (fun subject => decide (subject.id ≠ id))
  else subjects

/-- The field names the inputs of a row pass to `updateSubject`. -/
inductive Field where
  | name : Field
  | creditHours : Field
  | grade : Field
  deriving DecidableEq

/-- The record `{ ...subject, [field]: value }`. -/
def setField (subject : SubjectRecord) (field : Field) (value : String) : SubjectRecord :=
  match field with
  | Field.name => { subject with name := value }
  | Field.creditHours => { subject with creditHours := value }
  | Field.grade => { subject with grade := value }

/-- The read `subject[field]`. -/
def getField (subject : SubjectRecord) (field : Field) : String :=
  match field with
  | Field.name => subject.name
  | Field.creditHours => subject.creditHours
  | Field.grade => subject.grade

/-- The table `updateSubject(id, field, value)` passes to `setSubjects`. -/
def updateSubject (subjects : List SubjectRecord) (id : Int) (field : Field) (value : String) :
    List SubjectRecord :=
  subjects.map (fun subject => if subject.id = id then setField subject field value else subject)

/-- The component state the claims are about: the table and the stored CGPA. -/
structure State where
  subjects : List SubjectRecord
  cgpa : JSNumber
  deriving DecidableEq

/-- The two `useState` initial values. -/
def initialState : State :=
  { subjects := [blankRecord 1], cgpa := JSNumber.fin 0 }

/-- The CGPA effect: it stores the value computed from the current table. -/
def cgpaEffect (s : State) : State :=
  { s with cgpa := calculateCGPA s.subjects }

/-- The two setter calls of `resetCalculator`. -/
def resetCalculator (_s : State) : State :=
  { subjects := [blankRecord 1], cgpa := JSNumber.fin 0 }

/-- A user action on the table. -/
inductive Action where
  | add : Action
  | remove (id : Int) : Action
  | update (id : Int) (field : Field) (value : String) : Action
  | reset : Action
  deriving DecidableEq

/-- One action followed by the CGPA effect, which runs when `setSubjects` was called. -/
def step (s : State) : Action → State
  | Action.add => cgpaEffect { s with subjects := addSubject s.subjects }
  | Action.remove id =>
    if 1 < s.subjects.length then cgpaEffect { s with subjects := removeSubject s.subjects id }
    else s
  | Action.update id field value =>
    cgpaEffect { s with subjects := updateSubject s.subjects id field value }
  | Action.reset => cgpaEffect (resetCalculator s)

/-- The state after a finite sequence of actions. -/
def run (s : State) (actions : List Action) : State :=
  actions.foldl step s

/-! ## The average as the specification words it -/

/-- A record contributes when its parsed credit hours are `> 0` and its grade is one of
the eleven keys of the grade scale. -/
def contributes (r : SubjectRecord) : Bool :=
  (parseFloat r.creditHours).gt (JSNumber.fin 0) && decide (r.grade ∈ gradeKeys)

/-- The point value of a grade of the scale. -/
def pointValue (grade : String) : JSNumber :=
  (gradeMapping grade).toNumber

/-- The sum of a list of numbers, from the left, starting at `0`. -/
def sumFrom (start : JSNumber) (xs : List JSNumber) : JSNumber :=
  xs.foldl JSNumber.add start

/-- The credit-weighted mean over the contributing records, `0` without credits. -/
def weightedMean (table : List SubjectRecord) : JSNumber :=
  let rows := table.filter contributes
  let credits := sumFrom (JSNumber.fin 0) (rows.map (fun r => parseFloat r.creditHours))
  let points := sumFrom (JSNumber.fin 0)
    (rows.map (fun r => (parseFloat r.creditHours).mul (pointValue r.grade)))
  if credits.gt (JSNumber.fin 0) then points.div credits else JSNumber.fin 0

/-- The closed interval from 0 to 4 among the numbers; NaN and the infinities are outside. -/
def inRange (x : JSNumber) : Prop :=
  ∃ q : ℚ, x = JSNumber.fin q ∧ 0 ≤ q ∧ q ≤ 4

/-- A record the CGPA effect skips. -/
def skipped (r : SubjectRecord) : Prop :=
  (parseFloat r.creditHours).gt (JSNumber.fin 0) = false ∨ gradeMapping r.grade = JSValue.undefined

/-- Totals that are finite, with the points between `0` and four times the credits. -/
def Totals.Bounded (t : Totals) : Prop :=
  ∃ c p : ℚ, t = { totalCreditHours := JSNumber.fin c, totalGradePoints := JSNumber.fin p }
    ∧ 0 ≤ c ∧ 0 ≤ p ∧ p ≤ 4 * c

/-- A record whose credit hours do not parse to `Infinity` and whose grade does not name
a property inherited from `Object.prototype`. -/
def regular (r : SubjectRecord) : Prop :=
  parseFloat r.creditHours ≠ JSNumber.posInf ∧ r.grade ∉ objectPrototypeKeys

/-- The id the claim words for a new record: the maximum id existing in the table, or `0`
when the table has no record, plus one. -/
def maxExistingIdOrZero (table : List SubjectRecord) : Int :=
  match table.map (fun s => s.id) with
  | [] => 0
  | x :: xs => xs.foldl max x

/-- The invariant of the reachable tables: at least one record, and no id twice. -/
def TableInv (table : List SubjectRecord) : Prop :=
  1 ≤ table.length ∧ (table.map (fun s => s.id)).Nodup

/-- The invariant together with a bound on the ids of the table. -/
def BoundedInv (k : Int) (table : List SubjectRecord) : Prop :=
  TableInv table ∧ ∀ r ∈ table, r.id ≤ k

/-- The action sequence add, remove `k`, add, remove `k + 1`, and so on, `n` times: on the
table of the one record of id `k` each round leaves the one record of the next id. -/
def pumpActions : Nat → Int → List Action
  | 0, _ => []
  | n + 1, k => Action.add :: Action.remove k :: pumpActions n (k + 1)

/-! ## Lemmas on the grade scale and the accumulation -/

theorem gradeScale_bounds (k : String) (v : ℚ) (h : (k, v) ∈ gradeScale) : 0 ≤ v ∧ v ≤ 4 := by
  simp only [gradeScale, List.mem_cons, Prod.mk.injEq, List.mem_singleton, List.not_mem_nil,
    or_false] at h
  rcases h with h | h | h | h | h | h | h | h | h | h | h <;>
    (obtain ⟨-, rfl⟩ := h; constructor <;> norm_num)

theorem gradeMapping_cases (key : String) :
    (key ∈ gradeKeys ∧ ∃ v : ℚ, gradeMapping key = JSValue.number (JSNumber.fin v) ∧ 0 ≤ v ∧ v ≤ 4)
    ∨ (key ∉ gradeKeys ∧ key ∈ objectPrototypeKeys ∧ gradeMapping key = JSValue.object)
    ∨ (key ∉ gradeKeys ∧ key ∉ objectPrototypeKeys ∧ gradeMapping key = JSValue.undefined) := by
  unfold gradeMapping gradeKeys
  cases hl : gradeScale.lookup key with
  | some v =>
    left
    obtain ⟨l1, l2, heq, -⟩ := List.lookup_eq_some_iff.mp hl
    have hmem : (key, v) ∈ gradeScale := by rw [heq]; simp
    exact ⟨List.mem_map.mpr ⟨(key, v), hmem, rfl⟩, v, rfl, gradeScale_bounds key v hmem⟩
  | none =>
    right
    have hk : key ∉ gradeScale.map Prod.fst := by
      intro hmem
      obtain ⟨p, hp, hpk⟩ := List.mem_map.mp hmem
      have hne := List.lookup_eq_none_iff.mp hl p hp
      simp [hpk] at hne
    by_cases hp : key ∈ objectPrototypeKeys
    · left; exact ⟨hk, hp, by simp only [hp, if_true]⟩
    · right; exact ⟨hk, hp, by simp only [hp, if_false]⟩

theorem accumulate_skipped (acc : Totals) (r : SubjectRecord) (h : skipped r) :
    accumulate acc r = acc := by
  have hc : ((parseFloat r.creditHours).gt (JSNumber.fin 0)
      && decide (gradeMapping r.grade ≠ JSValue.undefined)) = false := by
    rcases h with h | h
    · rw [h, Bool.false_and]
    · rw [h]
      simp only [ne_eq, not_true_eq_false, decide_False, Bool.and_false]
  simp only [accumulate, hc, Bool.false_eq_true, if_false]

theorem totals_append (t1 t2 : List SubjectRecord) :
    totals (t1 ++ t2) = t2.foldl accumulate (totals t1) := by
  simp [totals, List.foldl_append]


theorem foldl_accumulate_skipped (acc : Totals) (t : List SubjectRecord)
    (h : ∀ r ∈ t, skipped r) : t.foldl accumulate acc = acc := by
  induction t generalizing acc with
  | nil => rfl
  | cons r t ih =>
    rw [List.foldl_cons, accumulate_skipped acc r (h r (List.mem_cons_self r t))]
    exact ih acc (fun x hx => h x (List.mem_cons_of_mem r hx))

theorem blankRecord_skipped (id : Int) : skipped (blankRecord id) :=
  Or.inl (by show (parseFloat "").gt (JSNumber.fin 0) = false; decide)

theorem calculateCGPA_insert_skipped (t1 t2 : List SubjectRecord) (r : SubjectRecord)
    (h : skipped r) : calculateCGPA (t1 ++ r :: t2) = calculateCGPA (t1 ++ t2) := by
  have ht : totals (t1 ++ r :: t2) = totals (t1 ++ t2) := by
    rw [totals_append, totals_append, List.foldl_cons, accumulate_skipped _ r h]
  simp only [calculateCGPA, ht]

theorem calculateCGPA_all_skipped (t : List SubjectRecord) (h : ∀ r ∈ t, skipped r) :
    calculateCGPA t = JSNumber.fin 0 := by
  have ht : totals t = { totalCreditHours := JSNumber.fin 0, totalGradePoints := JSNumber.fin 0 } :=
    foldl_accumulate_skipped _ t h
  simp only [calculateCGPA, ht]
  rfl

theorem gt_zero_cases (x : JSNumber) (h : x.gt (JSNumber.fin 0) = true) :
    x = JSNumber.posInf ∨ ∃ q : ℚ, x = JSNumber.fin q ∧ 0 < q := by
  cases x with
  | nan => simp [JSNumber.gt] at h
  | fin q => right; exact ⟨q, rfl, by simpa [JSNumber.gt] using h⟩
  | posInf => left; rfl
  | negInf => simp [JSNumber.gt] at h

theorem accumulate_bounded (acc : Totals) (r : SubjectRecord) (hacc : acc.Bounded)
    (hr : regular r) : (accumulate acc r).Bounded := by
  by_cases hs : skipped r
  · rw [accumulate_skipped acc r hs]; exact hacc
  · have hgt : (parseFloat r.creditHours).gt (JSNumber.fin 0) = true := by
      cases hb : (parseFloat r.creditHours).gt (JSNumber.fin 0) with
      | true => rfl
      | false => exact absurd (Or.inl hb) hs
    have hg : gradeMapping r.grade ≠ JSValue.undefined := fun hu => hs (Or.inr hu)
    obtain ⟨c, p, rfl, hc, hp, hpc⟩ := hacc
    rcases gt_zero_cases _ hgt with hinf | ⟨q, hq, hq0⟩
    · exact absurd hinf hr.1
    · rcases gradeMapping_cases r.grade with ⟨-, v, hv, hv0, hv4⟩ | ⟨-, hproto, -⟩ | ⟨-, -, hu⟩
      · refine ⟨c + q, p + q * v, ?_, by linarith, by nlinarith, by nlinarith⟩
        have hgt2 : (JSNumber.fin q).gt (JSNumber.fin 0) = true := by rw [← hq]; exact hgt
        simp only [accumulate, hq, hv, hgt2, JSNumber.add, JSNumber.mul, JSValue.toNumber]
        simp
      · exact absurd hproto hr.2
      · exact absurd hu hg

theorem totals_bounded (t : List SubjectRecord) (h : ∀ r ∈ t, regular r) :
    (totals t).Bounded := by
  have key : ∀ (acc : Totals), acc.Bounded → (∀ r ∈ t, regular r) →
      (t.foldl accumulate acc).Bounded := by
    induction t with
    | nil => intro acc hacc _; exact hacc
    | cons r t ih =>
      intro acc hacc hreg
      rw [List.foldl_cons]
      exact ih (fun x hx => h x (List.mem_cons_of_mem r hx)) _
        (accumulate_bounded acc r hacc (hreg r (List.mem_cons_self r t)))
        (fun x hx => hreg x (List.mem_cons_of_mem r hx))
  exact key _ ⟨0, 0, rfl, le_refl 0, le_refl 0, by norm_num⟩ h

theorem calculateCGPA_inRange (t : List SubjectRecord) (h : ∀ r ∈ t, regular r) :
    inRange (calculateCGPA t) := by
  obtain ⟨c, p, ht, hc, hp, hpc⟩ := totals_bounded t h
  simp only [calculateCGPA, ht, JSNumber.gt]
  by_cases hc0 : 0 < c
  · have hne : c ≠ 0 := ne_of_gt hc0
    simp only [hc0, decide_True, if_true, JSNumber.div, hne, if_false]
    exact ⟨p / c, rfl, div_nonneg hp hc, by rw [div_le_iff₀ hc0]; exact hpc⟩
  · simp only [hc0, decide_False, Bool.false_eq_true, if_false]
    exact ⟨0, rfl, le_refl 0, by norm_num⟩

theorem accumulate_eq_of_contributes (acc : Totals) (r : SubjectRecord)
    (h : r.grade ∉ objectPrototypeKeys) :
    accumulate acc r =
      if contributes r then
        { totalCreditHours := acc.totalCreditHours.add (parseFloat r.creditHours)
          totalGradePoints :=
            acc.totalGradePoints.add ((parseFloat r.creditHours).mul (pointValue r.grade)) }
      else acc := by
  have hiff : decide (gradeMapping r.grade ≠ JSValue.undefined) = decide (r.grade ∈ gradeKeys) := by
    rcases gradeMapping_cases r.grade with ⟨hk, v, hv, -, -⟩ | ⟨-, hproto, -⟩ | ⟨hk, -, hu⟩
    · rw [hv]; simp [hk]
    · exact absurd hproto h
    · rw [hu]; simp [hk]
  simp only [accumulate, contributes, pointValue, hiff]

theorem foldl_accumulate_eq_sums (t : List SubjectRecord)
    (h : ∀ r ∈ t, r.grade ∉ objectPrototypeKeys) (acc : Totals) :
    t.foldl accumulate acc =
      { totalCreditHours := sumFrom acc.totalCreditHours
          ((t.filter contributes).map (fun r => parseFloat r.creditHours))
        totalGradePoints := sumFrom acc.totalGradePoints
          ((t.filter contributes).map
            (fun r => (parseFloat r.creditHours).mul (pointValue r.grade))) } := by
  induction t generalizing acc with
  | nil => rfl
  | cons r t ih =>
    rw [List.foldl_cons, ih (fun x hx => h x (List.mem_cons_of_mem r hx)),
      accumulate_eq_of_contributes acc r (h r (List.mem_cons_self r t))]
    cases hc : contributes r with
    | true => simp [List.filter_cons, hc, sumFrom]
    | false => simp [List.filter_cons, hc]

/-- On a table in which no grade names a property inherited from `Object.prototype`, the
computed CGPA is the credit-weighted mean over the contributing records. -/
theorem calculateCGPA_eq_weightedMean (t : List SubjectRecord)
    (h : ∀ r ∈ t, r.grade ∉ objectPrototypeKeys) : calculateCGPA t = weightedMean t := by
  simp only [calculateCGPA, weightedMean, totals, foldl_accumulate_eq_sums t h]

theorem calculateCGPA_eq_weightedMean_witness :
    (∀ r ∈ [(⟨1, "", "3", "A"⟩ : SubjectRecord), ⟨2, "", "3", "B"⟩],
        r.grade ∉ objectPrototypeKeys) ∧
      calculateCGPA [(⟨1, "", "3", "A"⟩ : SubjectRecord), ⟨2, "", "3", "B"⟩]
        = weightedMean [(⟨1, "", "3", "A"⟩ : SubjectRecord), ⟨2, "", "3", "B"⟩] :=
  ⟨by decide, calculateCGPA_eq_weightedMean _ (by decide)⟩

/-- The scenarios of the specification: `{3, 'A'}` gives 4; `{3, 'A'}` and `{3, 'B'}` give
3.5; `{0, 'A'}` alone gives 0; `{3, unset}` alone gives 0. -/
theorem calculateCGPA_scenarios :
    calculateCGPA [⟨1, "", "3", "A"⟩] = JSNumber.fin 4
      ∧ calculateCGPA [⟨1, "", "3", "A"⟩, ⟨2, "", "3", "B"⟩] = JSNumber.fin (7 / 2)
      ∧ calculateCGPA [⟨1, "", "0", "A"⟩] = JSNumber.fin 0
      ∧ calculateCGPA [⟨1, "", "3", ""⟩] = JSNumber.fin 0 := by
  decide!

theorem calculateCGPA_insert_skipped_witness :
    skipped ⟨2, "", "0", "A"⟩
      ∧ calculateCGPA ([⟨1, "", "3", "A"⟩] ++ ⟨2, "", "0", "A"⟩ :: [⟨3, "", "3", "B"⟩])
        = calculateCGPA ([⟨1, "", "3", "A"⟩] ++ [⟨3, "", "3", "B"⟩]) :=
  ⟨Or.inl (by decide!),
    calculateCGPA_insert_skipped [⟨1, "", "3", "A"⟩] [⟨3, "", "3", "B"⟩] ⟨2, "", "0", "A"⟩
      (Or.inl (by decide!))⟩

theorem calculateCGPA_inRange_witness :
    (∀ r ∈ [(⟨1, "", "3", "A-"⟩ : SubjectRecord), ⟨2, "", "2.5", "B+"⟩], regular r)
      ∧ inRange (calculateCGPA [⟨1, "", "3", "A-"⟩, ⟨2, "", "2.5", "B+"⟩]) :=
  ⟨by
      intro r hr
      simp only [List.mem_cons, List.mem_singleton, List.not_mem_nil, or_false] at hr
      rcases hr with rfl | rfl <;> exact ⟨by decide!, by decide⟩,
    calculateCGPA_inRange _ (by
      intro r hr
      simp only [List.mem_cons, List.mem_singleton, List.not_mem_nil, or_false] at hr
      rcases hr with rfl | rfl <;> exact ⟨by decide!, by decide⟩)⟩

/-! ## Lemmas on the handlers -/

theorem foldl_max_bounds (l : List Int) (a : Int) :
    a ≤ l.foldl max a ∧ ∀ x ∈ l, x ≤ l.foldl max a := by
  induction l generalizing a with
  | nil => exact ⟨le_refl a, fun x hx => absurd hx (List.not_mem_nil x)⟩
  | cons y l ih =>
    obtain ⟨h1, h2⟩ := ih (max a y)
    refine ⟨le_trans (le_max_left a y) h1, fun x hx => ?_⟩
    rcases List.mem_cons.mp hx with rfl | hx
    · exact le_trans (le_max_right a x) h1
    · exact h2 x hx

theorem foldl_max_attained (l : List Int) (a : Int) :
    l.foldl max a = a ∨ l.foldl max a ∈ l := by
  induction l generalizing a with
  | nil => exact Or.inl rfl
  | cons y l ih =>
    rw [List.foldl_cons]
    rcases ih (max a y) with h | h
    · rcases max_choice a y with hm | hm
      · left; rw [h, hm]
      · right; rw [h, hm]; exact List.mem_cons_self y l
    · right; exact List.mem_cons_of_mem y h

theorem foldl_max_shift (l : List Int) (a b : Int) :
    l.foldl max (max a b) = max a (l.foldl max b) := by
  induction l generalizing b with
  | nil => rfl
  | cons y l ih => rw [List.foldl_cons, List.foldl_cons, max_assoc, ih]

theorem maxId_nonneg (t : List SubjectRecord) : 0 ≤ maxId t :=
  (foldl_max_bounds _ 0).1

theorem id_le_maxId (t : List SubjectRecord) (r : SubjectRecord) (h : r ∈ t) :
    r.id ≤ maxId t :=
  (foldl_max_bounds _ 0).2 r.id (List.mem_map.mpr ⟨r, h, rfl⟩)

theorem maxId_attained (t : List SubjectRecord) : maxId t = 0 ∨ ∃ r ∈ t, r.id = maxId t := by
  rcases foldl_max_attained (t.map (fun s => s.id)) 0 with h | h
  · exact Or.inl h
  · obtain ⟨r, hr, hid⟩ := List.mem_map.mp h
    exact Or.inr ⟨r, hr, hid⟩

theorem maxId_eq_maxExisting (t : List SubjectRecord) (h : ∃ r ∈ t, 0 ≤ r.id) :
    maxId t = maxExistingIdOrZero t := by
  obtain ⟨r, hr, h0⟩ := h
  cases t with
  | nil => exact absurd hr (List.not_mem_nil r)
  | cons x xs =>
    have hge : r.id ≤ (xs.map (fun s => s.id)).foldl max x.id := by
      rcases List.mem_cons.mp hr with rfl | hmem
      · exact (foldl_max_bounds _ _).1
      · exact (foldl_max_bounds _ _).2 r.id (List.mem_map.mpr ⟨r, hmem, rfl⟩)
    show ((x :: xs).map (fun s => s.id)).foldl max 0 = (xs.map (fun s => s.id)).foldl max x.id
    rw [List.map_cons, List.foldl_cons, foldl_max_shift]
    exact max_eq_right (le_trans h0 hge)

theorem setField_id (r : SubjectRecord) (f : Field) (v : String) : (setField r f v).id = r.id := by
  cases f <;> rfl

theorem getField_setField (r : SubjectRecord) (f : Field) (v : String) :
    getField (setField r f v) f = v := by
  cases f <;> rfl

theorem getField_setField_other (r : SubjectRecord) (f g : Field) (v : String) (h : g ≠ f) :
    getField (setField r f v) g = getField r g := by
  cases f <;> cases g <;> first | rfl | exact absurd rfl h

theorem updateSubject_ids (t : List SubjectRecord) (i : Int) (f : Field) (v : String) :
    (updateSubject t i f v).map (fun s => s.id) = t.map (fun s => s.id) := by
  unfold updateSubject
  rw [List.map_map]
  apply List.map_congr_left
  intro r _
  show (if r.id = i then setField r f v else r).id = r.id
  split
  · exact setField_id r f v
  · rfl

theorem length_le_filter_succ (t : List SubjectRecord) (i : Int)
    (h : (t.map (fun s => s.id)).Nodup) :
    t.length ≤ (t.filter (fun subject => decide (subject.id ≠ i))).length + 1 := by
  induction t with
  | nil => simp
  | cons r t ih =>
    rw [List.map_cons, List.nodup_cons] at h
    by_cases hr : r.id = i
    · have hall : ∀ x ∈ t, decide (x.id ≠ i) = true := by
        intro x hx
        have hne : x.id ≠ i := by
          intro hxi
          exact h.1 (List.mem_map.mpr ⟨x, hx, by rw [hxi, hr]⟩)
        simpa using hne
      rw [List.filter_cons_of_neg (by simpa using hr), List.filter_eq_self.mpr hall]
      simp
    · rw [List.filter_cons_of_pos (by simpa using hr)]
      have := ih h.2
      simp only [List.length_cons]
      omega

theorem filter_ids_nodup (t : List SubjectRecord) (p : SubjectRecord → Bool)
    (h : (t.map (fun s => s.id)).Nodup) : ((t.filter p).map (fun s => s.id)).Nodup :=
  h.sublist ((List.filter_sublist t).map _)

theorem spacingFrom_of_lt (fuel a : Nat) (h : a < 2 ^ 53) : spacingFrom fuel a 1 = 1 := by
  cases fuel with
  | zero => rfl
  | succ n =>
    unfold spacingFrom
    rw [Nat.div_one, if_pos h]

theorem roundToDouble_of_le (x : Int) (h0 : 0 ≤ x) (h : x ≤ 9007199254740992) :
    roundToDouble x = x := by
  rcases eq_or_lt_of_le h with heq | hlt
  · rw [heq]; decide!
  · lift x to Nat using h0
    have hn : x < 2 ^ 53 := by norm_num; exact_mod_cast hlt
    unfold roundToDouble
    simp only [Int.natAbs_ofNat, spacingFrom_of_lt x x hn, Nat.div_one, Nat.mod_one,
      Nat.mul_zero, Nat.lt_one_iff, if_true, Nat.mul_one]
    have hs := Int.sign_mul_natAbs (x : Int)
    rw [Int.natAbs_ofNat] at hs
    exact hs

theorem newId_exact (t : List SubjectRecord) (h : maxId t < 9007199254740992) :
    roundToDouble (maxId t + 1) = maxId t + 1 := by
  have h0 := maxId_nonneg t
  exact roundToDouble_of_le _ (by omega) (by omega)

theorem maxId_le_of_bound (t : List SubjectRecord) (k : Int) (hk : 0 ≤ k)
    (h : ∀ r ∈ t, r.id ≤ k) : maxId t ≤ k := by
  rcases maxId_attained t with h0 | ⟨r, hr, hid⟩
  · rw [h0]; exact hk
  · rw [← hid]; exact h r hr

theorem addSubject_ids_nodup (t : List SubjectRecord) (h : (t.map (fun s => s.id)).Nodup)
    (hmax : maxId t < 9007199254740992) : ((addSubject t).map (fun s => s.id)).Nodup := by
  unfold addSubject
  simp only [List.map_append, List.map_cons, List.map_nil]
  rw [List.nodup_append]
  refine ⟨h, List.nodup_singleton _, ?_⟩
  intro x hx hx2
  obtain ⟨r, hr, rfl⟩ := List.mem_map.mp hx
  have hle := id_le_maxId t r hr
  have heq : r.id = roundToDouble (maxId t + 1) := by simpa [blankRecord] using hx2
  rw [newId_exact t hmax] at heq
  omega

theorem step_add_subjects (s : State) : (step s Action.add).subjects = addSubject s.subjects :=
  rfl

theorem step_remove_subjects (s : State) (i : Int) :
    (step s (Action.remove i)).subjects = removeSubject s.subjects i := by
  by_cases h1 : 1 < s.subjects.length
  · simp [step, h1, cgpaEffect]
  · simp [step, h1, removeSubject]

theorem step_update_subjects (s : State) (i : Int) (f : Field) (v : String) :
    (step s (Action.update i f v)).subjects = updateSubject s.subjects i f v :=
  rfl

theorem step_reset_subjects (s : State) : (step s Action.reset).subjects = [blankRecord 1] :=
  rfl

theorem step_add_bounded (s : State) (k : Int) (hk : 0 ≤ k) (hlt : k < 9007199254740992)
    (h : BoundedInv k s.subjects) : BoundedInv (k + 1) (step s Action.add).subjects := by
  obtain ⟨⟨-, hnd⟩, hb⟩ := h
  have hmax : maxId s.subjects ≤ k := maxId_le_of_bound _ k hk hb
  have hlt2 : maxId s.subjects < 9007199254740992 := lt_of_le_of_lt hmax hlt
  rw [step_add_subjects]
  refine ⟨⟨?_, addSubject_ids_nodup _ hnd hlt2⟩, ?_⟩
  · show 1 ≤ (s.subjects ++ [blankRecord (roundToDouble (maxId s.subjects + 1))]).length
    simp
  · intro r hr
    have hr2 : r ∈ s.subjects ++ [blankRecord (roundToDouble (maxId s.subjects + 1))] := hr
    rcases List.mem_append.mp hr2 with hmem | hmem
    · have := hb r hmem
      omega
    · rw [List.mem_singleton.mp hmem, newId_exact _ hlt2]
      show maxId s.subjects + 1 ≤ k + 1
      omega

theorem step_other_bounded (s : State) (a : Action) (k : Int) (hk : 1 ≤ k)
    (ha : a ≠ Action.add) (h : BoundedInv k s.subjects) : BoundedInv k (step s a).subjects := by
  obtain ⟨⟨hlen, hnd⟩, hb⟩ := h
  cases a with
  | add => exact absurd rfl ha
  | remove i =>
    rw [step_remove_subjects]
    unfold removeSubject
    split
    · have := length_le_filter_succ s.subjects i hnd
      exact ⟨⟨by omega, filter_ids_nodup _ _ hnd⟩,
        fun r hr => hb r (List.mem_of_mem_filter hr)⟩
    · exact ⟨⟨hlen, hnd⟩, hb⟩
  | update i f v =>
    rw [step_update_subjects]
    refine ⟨⟨?_, by rw [updateSubject_ids]; exact hnd⟩, ?_⟩
    · unfold updateSubject
      rw [List.length_map]; exact hlen
    · intro r hr
      obtain ⟨r0, hr0, rfl⟩ := List.mem_map.mp hr
      have hid : (if r0.id = i then setField r0 f v else r0).id = r0.id := by
        split
        · exact setField_id r0 f v
        · rfl
      rw [hid]; exact hb r0 hr0
  | reset =>
    rw [step_reset_subjects]
    refine ⟨⟨le_refl 1, List.nodup_singleton _⟩, ?_⟩
    intro r hr
    rw [List.mem_singleton.mp hr]
    exact hk

theorem run_bounded_inv (actions : List Action) (s : State) (k : Int) (hk : 1 ≤ k)
    (h : BoundedInv k s.subjects)
    (hcount : k + (actions.count Action.add : Int) ≤ 9007199254740992) :
    TableInv (run s actions).subjects := by
  induction actions generalizing s k with
  | nil => exact h.1
  | cons a rest ih =>
    show TableInv (run (step s a) rest).subjects
    by_cases ha : a = Action.add
    · subst ha
      rw [List.count_cons_self] at hcount
      push_cast at hcount
      exact ih (step s Action.add) (k + 1) (by omega)
        (step_add_bounded s k (by omega) (by omega) h) (by omega)
    · rw [List.count_cons_of_ne (Ne.symm ha)] at hcount
      exact ih (step s a) k hk (step_other_bounded s a k hk ha h) hcount

theorem initialState_bounded : BoundedInv 1 initialState.subjects :=
  ⟨⟨le_refl 1, List.nodup_singleton _⟩, fun r hr => by
    rw [List.mem_singleton.mp hr]; exact le_refl 1⟩

theorem run_initial_inv (actions : List Action)
    (h : actions.count Action.add < 9007199254740992) :
    TableInv (run initialState actions).subjects :=
  run_bounded_inv actions initialState 1 (le_refl 1) initialState_bounded (by omega)

theorem run_nil (s : State) : run s [] = s :=
  rfl

theorem run_cons (s : State) (a : Action) (rest : List Action) :
    run s (a :: rest) = run (step s a) rest :=
  rfl

theorem run_append (s : State) (xs ys : List Action) :
    run s (xs ++ ys) = run (run s xs) ys :=
  List.foldl_append _ _ _ _

theorem pump_round (s : State) (k : Int) (hs : s.subjects = [blankRecord k]) (hk : 0 ≤ k)
    (hlt : k < 9007199254740992) :
    (step (step s Action.add) (Action.remove k)).subjects = [blankRecord (k + 1)] := by
  have hmax : maxId [blankRecord k] = k := by
    show max 0 k = k
    exact max_eq_right hk
  rw [step_remove_subjects, step_add_subjects, hs]
  have hadd : addSubject [blankRecord k] = [blankRecord k, blankRecord (k + 1)] := by
    show [blankRecord k] ++ [blankRecord (roundToDouble (maxId [blankRecord k] + 1))] = _
    rw [hmax, roundToDouble_of_le (k + 1) (by omega) (by omega)]
    rfl
  rw [hadd]
  have hne : (blankRecord (k + 1)).id ≠ k := by
    show k + 1 ≠ k
    omega
  simp [removeSubject, blankRecord]

theorem pump_run (n : Nat) (k : Int) (s : State) (hs : s.subjects = [blankRecord k])
    (hk : 0 ≤ k) (hle : k + (n : Int) ≤ 9007199254740992) :
    (run s (pumpActions n k)).subjects = [blankRecord (k + (n : Int))] := by
  induction n generalizing k s with
  | zero => simpa [pumpActions, run] using hs
  | succ n ih =>
    push_cast at hle
    show (run (step (step s Action.add) (Action.remove k)) (pumpActions n (k + 1))).subjects = _
    rw [ih (k + 1) _ (pump_round s k hs hk (by omega)) (by omega) (by omega)]
    push_cast
    rw [add_assoc, add_comm 1 (n : Int)]

theorem removeSubject_pair (k : Int) :
    removeSubject [blankRecord k, blankRecord k] k = [] := by
  simp [removeSubject, blankRecord]

theorem addSubject_at_two_pow_53 :
    addSubject [blankRecord 9007199254740992]
      = [blankRecord 9007199254740992, blankRecord 9007199254740992] := by
  decide!

theorem pump_reaches :
    (run initialState (pumpActions (2 ^ 53 - 1) 1)).subjects
      = [blankRecord 9007199254740992] := by
  rw [pump_run (2 ^ 53 - 1) 1 initialState rfl (by omega) (by norm_num)]
  norm_num

theorem ids_nodup_index (t : List SubjectRecord) (h : (t.map (fun s => s.id)).Nodup)
    (i j : Nat) (r1 r2 : SubjectRecord) (h1 : t[i]? = some r1) (h2 : t[j]? = some r2)
    (hid : r1.id = r2.id) : i = j := by
  have hi : (t.map (fun s => s.id))[i]? = some r1.id := by rw [List.getElem?_map, h1]; rfl
  have hj : (t.map (fun s => s.id))[j]? = some r1.id := by
    rw [List.getElem?_map, h2, hid]; rfl
  have hil : i < (t.map (fun s => s.id)).length := by
    by_contra hc
    rw [List.getElem?_eq_none (Nat.le_of_not_lt hc)] at hi
    exact Option.noConfusion hi
  have hjl : j < (t.map (fun s => s.id)).length := by
    by_contra hc
    rw [List.getElem?_eq_none (Nat.le_of_not_lt hc)] at hj
    exact Option.noConfusion hj
  have hne := List.nodup_iff_getElem?_ne_getElem?.mp h
  rcases lt_trichotomy i j with hlt | heq | hgt
  · exact absurd (hi.trans hj.symm) (hne i j hlt hjl)
  · exact heq
  · exact absurd (hj.trans hi.symm) (hne j i hgt hil)

/-! ## The claims -/

/-- C1, at a grade that names an inherited property. The record `{3, 'constructor'}` does
not contribute in the sense of the claim, so the credit-weighted mean over the contributing
records is `0`; the CGPA effect counts it and computes NaN. -/
theorem calculateCGPA_ne_weightedMean_at_constructor :
    contributes ⟨1, "", "3", "constructor"⟩ = false
      ∧ weightedMean [⟨1, "", "3", "constructor"⟩] = JSNumber.fin 0
      ∧ calculateCGPA [⟨1, "", "3", "constructor"⟩] = JSNumber.nan := by
  decide!

/-- C2, at a grade that names an inherited property and at credit hours `Infinity`: the
computed CGPA is NaN, which is not in the interval from 0 to 4. -/
theorem calculateCGPA_not_inRange_at_toString :
    calculateCGPA [⟨1, "", "3", "toString"⟩] = JSNumber.nan
      ∧ ¬ inRange (calculateCGPA [⟨1, "", "3", "toString"⟩])
      ∧ calculateCGPA [⟨1, "", "Infinity", "A"⟩] = JSNumber.nan
      ∧ ¬ inRange (calculateCGPA [⟨1, "", "Infinity", "A"⟩]) := by
  have h1 : calculateCGPA [⟨1, "", "3", "toString"⟩] = JSNumber.nan := by decide!
  have h2 : calculateCGPA [⟨1, "", "Infinity", "A"⟩] = JSNumber.nan := by decide!
  refine ⟨h1, ?_, h2, ?_⟩
  · rintro ⟨q, hq, -⟩
    rw [h1] at hq
    exact JSNumber.noConfusion hq
  · rintro ⟨q, hq, -⟩
    rw [h2] at hq
    exact JSNumber.noConfusion hq

/-- C3, at a grade that names an inherited property: the grade `valueOf` is not a key of
the grade scale, yet inserting the record `{3, 'valueOf'}` after, or before, the record
`{3, 'A'}` changes the computed CGPA from 4 to NaN, and alone it gives NaN, not 0. -/
theorem calculateCGPA_changed_by_valueOf_record :
    "valueOf" ∉ gradeKeys
      ∧ calculateCGPA [⟨1, "", "3", "A"⟩] = JSNumber.fin 4
      ∧ calculateCGPA ([⟨1, "", "3", "A"⟩] ++ ⟨2, "", "3", "valueOf"⟩ :: []) = JSNumber.nan
      ∧ calculateCGPA ([] ++ ⟨2, "", "3", "valueOf"⟩ :: [⟨1, "", "3", "A"⟩]) = JSNumber.nan
      ∧ calculateCGPA [⟨2, "", "3", "valueOf"⟩] = JSNumber.nan := by
  decide!

/-- C4. Adding a record never changes the CGPA: for every table, the CGPA computed from the
table after `addSubject` equals the CGPA computed from the table before. -/
theorem calculateCGPA_addSubject (t : List SubjectRecord) :
    calculateCGPA (addSubject t) = calculateCGPA t := by
  have h := calculateCGPA_insert_skipped t [] (blankRecord (roundToDouble (maxId t + 1)))
    (blankRecord_skipped _)
  rw [List.append_nil] at h
  exact h

/-- C5, as worded, at a run of more than `2 ^ 53` actions. The rounds add, remove 1, add,
remove 2, ... reach the table of the one record of id `2 ^ 53`; one more add allocates
`2 ^ 53` again, and removing that id then leaves a table with no record. -/
theorem run_table_empty_after_id_overflow :
    (run initialState
        (pumpActions (2 ^ 53 - 1) 1 ++ [Action.add, Action.remove 9007199254740992])).subjects
        = []
      ∧ ¬ 1 ≤ (run initialState
        (pumpActions (2 ^ 53 - 1) 1
          ++ [Action.add, Action.remove 9007199254740992])).subjects.length := by
  have hempty : (run initialState
      (pumpActions (2 ^ 53 - 1) 1 ++ [Action.add, Action.remove 9007199254740992])).subjects
      = [] := by
    rw [run_append, run_cons, run_cons, run_nil, step_remove_subjects, step_add_subjects,
      pump_reaches, addSubject_at_two_pow_53]
    exact removeSubject_pair 9007199254740992
  refine ⟨hempty, ?_⟩
  rw [hempty]
  decide

/-- C5, amended. In every state reached from the initial state by a finite sequence of add,
remove, update and reset actions with fewer than `2 ^ 53` add actions, the table has at
least one record. -/
theorem run_table_length_pos (actions : List Action)
    (h : actions.count Action.add < 9007199254740992) :
    1 ≤ (run initialState actions).subjects.length :=
  (run_initial_inv actions h).1

theorem run_table_length_pos_witness :
    [Action.add, Action.remove 1, Action.remove 2, Action.reset, Action.remove 1].count
        Action.add < 9007199254740992
      ∧ 1 ≤ (run initialState
        [Action.add, Action.remove 1, Action.remove 2, Action.reset,
          Action.remove 1]).subjects.length :=
  ⟨by decide, run_table_length_pos _ (by decide)⟩

/-- C6, as worded, at the table of the one record of id `2 ^ 53`, which the rounds add,
remove 1, add, remove 2, ... reach: the id `addSubject` allocates is `2 ^ 53` again, so
after one more add two records of the reached table have the same id. -/
theorem run_table_ids_repeat_after_id_overflow :
    addSubject [blankRecord 9007199254740992]
        = [blankRecord 9007199254740992] ++ [blankRecord 9007199254740992]
      ∧ (run initialState (pumpActions (2 ^ 53 - 1) 1 ++ [Action.add])).subjects
        = [blankRecord 9007199254740992, blankRecord 9007199254740992]
      ∧ ¬ ((run initialState (pumpActions (2 ^ 53 - 1) 1 ++ [Action.add])).subjects.map
          (fun s => s.id)).Nodup := by
  have hadd : addSubject [blankRecord 9007199254740992]
      = [blankRecord 9007199254740992] ++ [blankRecord 9007199254740992] :=
    addSubject_at_two_pow_53
  have hrun : (run initialState (pumpActions (2 ^ 53 - 1) 1 ++ [Action.add])).subjects
      = [blankRecord 9007199254740992, blankRecord 9007199254740992] := by
    rw [run_append, run_cons, run_nil, step_add_subjects, pump_reaches,
      addSubject_at_two_pow_53]
  refine ⟨hadd, hrun, ?_⟩
  rw [hrun]
  decide

/-- C6, amended. In every state reached from the initial state by a finite sequence of add,
remove, update (of name, creditHours or grade) and reset actions with fewer than `2 ^ 53`
add actions, no two records of the table have the same id; and for every table whose ids
are all below `2 ^ 53` the id that `addSubject` allocates differs from every id already in
the table. -/
theorem run_table_ids_unique (actions : List Action)
    (h : actions.count Action.add < 9007199254740992) :
    ((run initialState actions).subjects.map (fun s => s.id)).Nodup
      ∧ (∀ (i j : Nat) (r1 r2 : SubjectRecord),
          (run initialState actions).subjects[i]? = some r1 →
          (run initialState actions).subjects[j]? = some r2 → r1.id = r2.id → i = j)
      ∧ (∀ t : List SubjectRecord, (∀ r ∈ t, r.id < 9007199254740992) →
          ∃ newId : Int, addSubject t = t ++ [blankRecord newId] ∧ ∀ r ∈ t, r.id ≠ newId) := by
  have hnd := (run_initial_inv actions h).2
  refine ⟨hnd, ids_nodup_index _ hnd, fun t ht =>
    ⟨roundToDouble (maxId t + 1), rfl, fun r hr => ?_⟩⟩
  have hmax : maxId t < 9007199254740992 := by
    rcases maxId_attained t with h0 | ⟨r0, hr0, hid⟩
    · rw [h0]; decide
    · rw [← hid]; exact ht r0 hr0
  rw [newId_exact t hmax]
  have := id_le_maxId t r hr
  omega

theorem run_table_ids_unique_witness :
    [Action.add, Action.add, Action.remove 2, Action.add].count Action.add < 9007199254740992
      ∧ (run initialState [Action.add, Action.add, Action.remove 2, Action.add]).subjects
        = [blankRecord 1, blankRecord 3, blankRecord 4]
      ∧ ((run initialState [Action.add, Action.add, Action.remove 2, Action.add]).subjects.map
          (fun s => s.id)).Nodup :=
  ⟨by decide, by decide!,
    (run_table_ids_unique [Action.add, Action.add, Action.remove 2, Action.add]
      (by decide)).1⟩

/-- C7, as worded, at two tables. On the table of the one record of id `2 ^ 53`, which the
rounds add, remove 1, add, remove 2, ... reach from the initial table, the new record gets
the id `2 ^ 53`, not the maximum existing id plus one. On a table whose only id is `-5` the
new record gets the id `1`, not `-4`. -/
theorem addSubject_not_max_existing_plus_one :
    (run initialState (pumpActions (2 ^ 53 - 1) 1)).subjects = [blankRecord 9007199254740992]
      ∧ maxExistingIdOrZero [blankRecord 9007199254740992] + 1 = 9007199254740993
      ∧ addSubject [blankRecord 9007199254740992]
        = [blankRecord 9007199254740992, ⟨9007199254740992, "", "", ""⟩]
      ∧ addSubject [blankRecord 9007199254740992] ≠ [blankRecord 9007199254740992]
          ++ [blankRecord (maxExistingIdOrZero [blankRecord 9007199254740992] + 1)]
      ∧ maxExistingIdOrZero [⟨-5, "", "", ""⟩] + 1 = -4
      ∧ addSubject [⟨-5, "", "", ""⟩] = [⟨-5, "", "", ""⟩, ⟨1, "", "", ""⟩]
      ∧ addSubject [⟨-5, "", "", ""⟩]
        ≠ [⟨-5, "", "", ""⟩] ++ [blankRecord (maxExistingIdOrZero [⟨-5, "", "", ""⟩] + 1)] :=
  ⟨pump_reaches, by decide!, by decide!, by decide!, by decide!, by decide!, by decide!⟩

/-- C7, amended. For every table, `addSubject` gives the table followed by one new record
whose name, creditHours and grade are empty and whose id is `m + 1` as a double, where `m`
is the greatest of `0` and the ids of the table: `m` is at least `0`, at least every id of
the table, and is `0` or an id of the table; the id is exactly `m + 1` when `m` is below
`2 ^ 53`; `m` is the maximum existing id as soon as some id of the table is not negative,
and `0` for the empty table. The existing records are kept in place and the length grows
by exactly one. -/
theorem addSubject_spec (t : List SubjectRecord) :
    addSubject t = t ++ [⟨roundToDouble (maxId t + 1), "", "", ""⟩]
      ∧ (addSubject t).length = t.length + 1
      ∧ (∀ (k : Nat) (r : SubjectRecord), t[k]? = some r → (addSubject t)[k]? = some r)
      ∧ 0 ≤ maxId t
      ∧ (∀ r ∈ t, r.id ≤ maxId t)
      ∧ (maxId t = 0 ∨ ∃ r ∈ t, r.id = maxId t)
      ∧ (maxId t < 9007199254740992 → roundToDouble (maxId t + 1) = maxId t + 1)
      ∧ ((∃ r ∈ t, 0 ≤ r.id) → maxId t = maxExistingIdOrZero t)
      ∧ (t = [] → maxId t = 0 ∧ maxExistingIdOrZero t = 0) := by
  refine ⟨rfl, ?_, ?_, maxId_nonneg t, id_le_maxId t, maxId_attained t, newId_exact t,
    maxId_eq_maxExisting t, ?_⟩
  · show (t ++ [blankRecord (roundToDouble (maxId t + 1))]).length = t.length + 1
    simp
  · intro k r hk
    show (t ++ [blankRecord (roundToDouble (maxId t + 1))])[k]? = some r
    have hlt : k < t.length := by
      by_contra hc
      rw [List.getElem?_eq_none (Nat.le_of_not_lt hc)] at hk
      exact Option.noConfusion hk
    rw [List.getElem?_append_left hlt]
    exact hk
  · rintro rfl
    exact ⟨rfl, rfl⟩

theorem addSubject_spec_witness :
    (∃ r ∈ [(⟨1, "x", "3", "A"⟩ : SubjectRecord), ⟨7, "", "", ""⟩, ⟨4, "", "2", "B"⟩], 0 ≤ r.id)
      ∧ maxId [⟨1, "x", "3", "A"⟩, ⟨7, "", "", ""⟩, ⟨4, "", "2", "B"⟩] < 9007199254740992
      ∧ addSubject [⟨1, "x", "3", "A"⟩, ⟨7, "", "", ""⟩, ⟨4, "", "2", "B"⟩]
        = [⟨1, "x", "3", "A"⟩, ⟨7, "", "", ""⟩, ⟨4, "", "2", "B"⟩, ⟨8, "", "", ""⟩]
      ∧ roundToDouble (maxId [⟨1, "x", "3", "A"⟩, ⟨7, "", "", ""⟩, ⟨4, "", "2", "B"⟩] + 1)
        = maxId [⟨1, "x", "3", "A"⟩, ⟨7, "", "", ""⟩, ⟨4, "", "2", "B"⟩] + 1
      ∧ maxId [⟨1, "x", "3", "A"⟩, ⟨7, "", "", ""⟩, ⟨4, "", "2", "B"⟩]
        = maxExistingIdOrZero [⟨1, "x", "3", "A"⟩, ⟨7, "", "", ""⟩, ⟨4, "", "2", "B"⟩] :=
  ⟨⟨⟨1, "x", "3", "A"⟩, by decide, by decide⟩, by decide, by decide!,
    (addSubject_spec [⟨1, "x", "3", "A"⟩, ⟨7, "", "", ""⟩, ⟨4, "", "2", "B"⟩]).2.2.2.2.2.2.1
      (by decide),
    (addSubject_spec [⟨1, "x", "3", "A"⟩, ⟨7, "", "", ""⟩, ⟨4, "", "2", "B"⟩]).2.2.2.2.2.2.2.1
      ⟨⟨1, "x", "3", "A"⟩, by decide, by decide⟩⟩

/-- C8. For every table and id: a table of exactly one record is left as it is, also when
the id is that of its record; a table with no record of that id is left as it is; otherwise
the result is the table without the records of that id, every other record kept as it was
and in the original order, so that a table split around its one record of that id gives the
part before followed by the part after. -/
theorem removeSubject_spec (t : List SubjectRecord) (i : Int) :
    (t.length = 1 → removeSubject t i = t)
      ∧ ((∀ r ∈ t, r.id ≠ i) → removeSubject t i = t)
      ∧ (t.length ≠ 1 → (∃ r ∈ t, r.id = i) →
          removeSubject t i = t.filter (fun r => decide (r.id ≠ i))
          ∧ (removeSubject t i).Sublist t
          ∧ (∀ r, r ∈ removeSubject t i ↔ r ∈ t ∧ r.id ≠ i)
          ∧ (∀ (l1 l2 : List SubjectRecord) (r : SubjectRecord), t = l1 ++ r :: l2 →
              r.id = i → (∀ x ∈ l1 ++ l2, x.id ≠ i) → removeSubject t i = l1 ++ l2)) := by
  refine ⟨?_, ?_, ?_⟩
  · intro h1
    simp [removeSubject, h1]
  · intro hall
    unfold removeSubject
    split
    · exact List.filter_eq_self.mpr (fun x hx => by simpa using hall x hx)
    · rfl
  · intro hne hex
    have hlen : 1 < t.length := by
      obtain ⟨r, hr, -⟩ := hex
      have hpos : 0 < t.length := List.length_pos_of_mem hr
      omega
    have heq : removeSubject t i = t.filter (fun r => decide (r.id ≠ i)) := by
      simp [removeSubject, hlen]
    refine ⟨heq, ?_, ?_, ?_⟩
    · rw [heq]; exact List.filter_sublist t
    · intro r
      rw [heq, List.mem_filter]
      simp
    · intro l1 l2 r ht hr hall
      have hkeep : (l1 ++ l2).filter (fun r => decide (r.id ≠ i)) = l1 ++ l2 :=
        List.filter_eq_self.mpr (fun x hx => by simpa using hall x hx)
      rw [heq, ht, List.filter_append,
        List.filter_cons_of_neg (by simpa using hr), ← List.filter_append, hkeep]

theorem removeSubject_spec_witness :
    ([(⟨1, "a", "3", "A"⟩ : SubjectRecord), ⟨2, "b", "", ""⟩, ⟨3, "c", "2", "B"⟩].length ≠ 1)
      ∧ (∃ r ∈ [(⟨1, "a", "3", "A"⟩ : SubjectRecord), ⟨2, "b", "", ""⟩, ⟨3, "c", "2", "B"⟩],
          r.id = 2)
      ∧ removeSubject [⟨1, "a", "3", "A"⟩, ⟨2, "b", "", ""⟩, ⟨3, "c", "2", "B"⟩] 2
        = [⟨1, "a", "3", "A"⟩, ⟨3, "c", "2", "B"⟩]
      ∧ removeSubject [⟨1, "a", "3", "A"⟩] 1 = [⟨1, "a", "3", "A"⟩] :=
  ⟨by decide, ⟨⟨2, "b", "", ""⟩, by decide, by decide⟩,
    ((removeSubject_spec [⟨1, "a", "3", "A"⟩, ⟨2, "b", "", ""⟩, ⟨3, "c", "2", "B"⟩] 2).2.2
      (by decide) ⟨⟨2, "b", "", ""⟩, by decide, by decide⟩).2.2.2
      [⟨1, "a", "3", "A"⟩] [⟨3, "c", "2", "B"⟩] ⟨2, "b", "", ""⟩ rfl rfl (by decide),
    (removeSubject_spec [⟨1, "a", "3", "A"⟩] 1).1 rfl⟩

/-- C9. For every table, id, editable field and value: `updateSubject` keeps the length and
the sequence of ids; at every position, the record there keeps its id, is unchanged when its
id is not the given one, and otherwise has the given field equal to the value and its other
fields unchanged; and when no record has the given id the table is returned as it is. The
function is total, so no value is rejected. -/
theorem updateSubject_spec (t : List SubjectRecord) (i : Int) (f : Field) (v : String) :
    (updateSubject t i f v).length = t.length
      ∧ (updateSubject t i f v).map (fun s => s.id) = t.map (fun s => s.id)
      ∧ (∀ (k : Nat) (r : SubjectRecord), t[k]? = some r →
          ∃ r2, (updateSubject t i f v)[k]? = some r2 ∧ r2.id = r.id
            ∧ (r.id ≠ i → r2 = r)
            ∧ (r.id = i → getField r2 f = v ∧ ∀ g, g ≠ f → getField r2 g = getField r g))
      ∧ ((∀ r ∈ t, r.id ≠ i) → updateSubject t i f v = t) := by
  refine ⟨by simp [updateSubject], updateSubject_ids t i f v, ?_, ?_⟩
  · intro k r hk
    refine ⟨if r.id = i then setField r f v else r, ?_, ?_, ?_, ?_⟩
    · unfold updateSubject
      rw [List.getElem?_map, hk]
      rfl
    · split
      · exact setField_id r f v
      · rfl
    · intro hne
      rw [if_neg hne]
    · intro heq
      rw [if_pos heq]
      exact ⟨getField_setField r f v, fun g hg => getField_setField_other r f g v hg⟩
  · intro hall
    unfold updateSubject
    conv_rhs => rw [← List.map_id t]
    apply List.map_congr_left
    intro r hr
    rw [if_neg (hall r hr)]
    rfl

theorem updateSubject_spec_witness :
    (∀ r ∈ [(⟨1, "a", "3", "A"⟩ : SubjectRecord), ⟨2, "b", "", ""⟩], r.id ≠ 5)
      ∧ updateSubject [⟨1, "a", "3", "A"⟩, ⟨2, "b", "", ""⟩] 5 Field.grade "B"
        = [⟨1, "a", "3", "A"⟩, ⟨2, "b", "", ""⟩]
      ∧ updateSubject [⟨1, "a", "3", "A"⟩, ⟨2, "b", "", ""⟩] 2 Field.creditHours "abc"
        = [⟨1, "a", "3", "A"⟩, ⟨2, "b", "abc", ""⟩] :=
  ⟨by decide,
    (updateSubject_spec [⟨1, "a", "3", "A"⟩, ⟨2, "b", "", ""⟩] 5 Field.grade "B").2.2.2
      (by decide),
    by decide⟩

/-- C10. For every state, whatever its table and stored CGPA, `resetCalculator` leaves a
table of exactly one record with id 1 and empty name, creditHours and grade, and a stored
CGPA of 0; the CGPA effect computes that same 0 from the table, so the reset action ends in
the initial state. -/
theorem resetCalculator_spec (s : State) :
    (resetCalculator s).subjects = [{ id := 1, name := "", creditHours := "", grade := "" }]
      ∧ (resetCalculator s).cgpa = JSNumber.fin 0
      ∧ calculateCGPA (resetCalculator s).subjects = JSNumber.fin 0
      ∧ step s Action.reset = initialState := by
  have hc : calculateCGPA [blankRecord 1] = JSNumber.fin 0 :=
    calculateCGPA_all_skipped _ (fun r hr => by
      rw [List.mem_singleton.mp hr]; exact blankRecord_skipped 1)
  exact ⟨rfl, rfl, hc, by
    show ({ subjects := [blankRecord 1], cgpa := calculateCGPA [blankRecord 1] } : State) = _
    rw [hc]; rfl⟩

end CGPACalculator
